import Mathlib

/- Verification of the blflash flash-session driver (src/blflash/src/flasher.rs).
   The driver and its protocol codec are shallowly embedded below: pure frame
   serialization is translated directly from the deku struct definitions in
   `mod protocol`, and the stateful driver loops are translated into explicit
   recursion over an oracle (`FlashEnv` / a poll function) that supplies the
   results of the serial-link collaborator calls (the `Connection` type lives
   in connection.rs, which is not part of the sources here; its primitives are
   modelled from the specification where a claim needs their behaviour). -/

namespace Blflash

/-- Little-endian encoding of a `u16` field (deku `endian = "little"`). -/
def u16le (n : Nat) : List Nat := [n % 256, n / 256 % 256]

/-- Little-endian encoding of a `u32` field (deku `endian = "little"`). -/
def u32le (n : Nat) : List Nat :=
  [n % 256, n / 256 % 256, n / 65536 % 256, n / 16777216 % 256]

/-- Error kinds of the driver (`crate::Error`; the variants the spec names). -/
inductive Error where
  | Timeout
  | ConnectionFailed
  | InvalidState
  | Nack (code : List Nat)
  | ShortRead
  | Decode
  | Io
deriving DecidableEq, Repr

/-- `protocol::LoadBootHeader` (deku magic `\x11\x00`, little endian):
    a `u16` length field updated from `boot_header.len()` and the header bytes. -/
structure LoadBootHeader where
  boot_header_len : Nat
  boot_header : List Nat
deriving DecidableEq, Repr

/-- `req.update()`: deku recomputes `boot_header_len = self.boot_header.len()`,
    failing if the `usize` value does not fit in the `u16` field. -/
def LoadBootHeader.update (m : LoadBootHeader) : Option LoadBootHeader :=
  if m.boot_header.length < 65536 then
    some { m with boot_header_len := m.boot_header.length }
  else none

/-- `req.to_bytes()` for `LoadBootHeader`: magic, then `u16` length, then payload. -/
def LoadBootHeader.to_bytes (m : LoadBootHeader) : List Nat :=
  0x11 :: 0x00 :: u16le m.boot_header_len ++ m.boot_header

/-- `protocol::LoadSegmentHeader` (deku magic `\x17\x00`, little endian). -/
structure LoadSegmentHeader where
  segment_header_len : Nat
  segment_header : List Nat
deriving DecidableEq, Repr

/-- `req.update()` recomputes `segment_header_len = self.segment_header.len()`. -/
def LoadSegmentHeader.update (m : LoadSegmentHeader) : Option LoadSegmentHeader :=
  if m.segment_header.length < 65536 then
    some { m with segment_header_len := m.segment_header.length }
  else none

/-- `req.to_bytes()` for `LoadSegmentHeader`. -/
def LoadSegmentHeader.to_bytes (m : LoadSegmentHeader) : List Nat :=
  0x17 :: 0x00 :: u16le m.segment_header_len ++ m.segment_header

/-- `protocol::LoadSegmentData` (deku magic `\x18\x00`, little endian). -/
structure LoadSegmentData where
  segment_data_len : Nat
  segment_data : List Nat
deriving DecidableEq, Repr

/-- `req.update()` recomputes `segment_data_len = self.segment_data.len()`. -/
def LoadSegmentData.update (m : LoadSegmentData) : Option LoadSegmentData :=
  if m.segment_data.length < 65536 then
    some { m with segment_data_len := m.segment_data.length }
  else none

/-- `req.to_bytes()` for `LoadSegmentData`. -/
def LoadSegmentData.to_bytes (m : LoadSegmentData) : List Nat :=
  0x18 :: 0x00 :: u16le m.segment_data_len ++ m.segment_data

/-- `protocol::FlashProgram` (deku magic `\x31\x00`, little endian):
    `len : u16` updated from `FlashProgram::len`, then `addr : u32`, then data. -/
structure FlashProgram where
  len : Nat
  addr : Nat
  data : List Nat
deriving DecidableEq, Repr

/-- `FlashProgram::len(&self) -> u16`: `self.data.len() as u16 + 4`
    (the `as u16` cast truncates, and the `u16` addition wraps). -/
def FlashProgram.lenVal (m : FlashProgram) : Nat :=
  (m.data.length % 65536 + 4) % 65536

/-- `req.update()` recomputes `len = self.len()`; a `u16` always fits. -/
def FlashProgram.update (m : FlashProgram) : Option FlashProgram :=
  some { m with len := m.lenVal }

/-- `req.to_bytes()` for `FlashProgram`. -/
def FlashProgram.to_bytes (m : FlashProgram) : List Nat :=
  0x31 :: 0x00 :: u16le m.len ++ u32le m.addr ++ m.data

/-- `protocol::Sha256Read` (deku magic `\x3d\x00\x08\x00`, little endian). -/
structure Sha256Read where
  addr : Nat
  len : Nat
deriving DecidableEq, Repr

/-- `req.to_bytes()` for `Sha256Read` (no dynamic field: `update` is a no-op). -/
def Sha256Read.to_bytes (m : Sha256Read) : List Nat :=
  0x3d :: 0x00 :: 0x08 :: 0x00 :: u32le m.addr ++ u32le m.len

/-- The embedded little-endian `u16` length field of an encoded request whose
    magic is 2 bytes: the bytes at offsets 2 and 3. -/
def lenField (frame : List Nat) : Nat := frame.getD 2 0 + 256 * frame.getD 3 0

/-- Modelled from the spec: the NAK status prefix. The spec fixes only that a
    NAK status is distinguished from every ACK status and is followed by a
    2-byte error code; `connection.rs` is not among the sources. -/
def isNack (status : List Nat) : Bool := status = [0x46, 0x4C]

/-- Modelled from the spec: `Connection::read_response(expected_total_len)`
    (connection.rs is not among the sources). Reads exactly 2 status bytes;
    on NAK fails with `Nack(code)`; if ACK and `expected_total_len > 2` reads
    the remaining bytes and returns the whole `expected_total_len`-byte buffer,
    otherwise returns the 2 status bytes. `inbox` is the byte stream available
    on the link; too few bytes means the read times out or comes up short. -/
def read_response (expected : Nat) (inbox : List Nat) : Except Error (List Nat) :=
  if inbox.length < 2 then .error .Timeout
  else if isNack (inbox.take 2) then .error (.Nack ((inbox.drop 2).take 2))
  else if 2 < expected then
    if inbox.length < expected then .error .ShortRead
    else .ok (inbox.take expected)
  else .ok (inbox.take 2)

/-- `protocol::Sha256ReadResp` (deku magic `\x20\x00`, then `digest : [u8; 32]`). -/
structure Sha256ReadResp where
  digest : List Nat
deriving DecidableEq, Repr

/-- `Sha256ReadResp::from_bytes`: checks the 2 magic bytes, then reads the
    32-byte digest; anything short or mismatched is a decode failure. -/
def Sha256ReadResp.from_bytes (b : List Nat) : Except Error Sha256ReadResp :=
  if b.take 2 = [0x20, 0x00] then
    if 34 ≤ b.length then .ok ⟨(b.drop 2).take 32⟩ else .error .Decode
  else .error .Decode

/-- `Flasher::sha256_read(addr, len)`: serializes one `Sha256Read` request
    (returned as the list of frames written to the link), calls
    `read_response(34)` and decodes the response, returning the digest. -/
def sha256_read (addr len : Nat) (inbox : List Nat) :
    Except Error (List (List Nat) × List Nat) :=
  let frame := (Sha256Read.mk addr len).to_bytes
  match read_response 34 inbox with
  | .error e => .error e
  | .ok resp =>
    match Sha256ReadResp.from_bytes resp with
    | .error e => .error e
    | .ok r => .ok ([frame], r.digest)

/-- A flash segment consumed by the image-loader driver (`RomSegment`):
    a flash-relative address and the segment bytes. -/
structure Segment where
  addr : Nat
  data : List Nat
deriving DecidableEq, Repr

/-- Modelled from the spec: `RomSegment::size` lives in elf.rs, which is not
    among the sources; the spec's data model is `(addr: u32, data: bytes)`
    with the segment size the byte length of `data`. -/
def Segment.size (s : Segment) : Nat := s.data.length

/-- The requests a driver operation issues over the link, in issue order. -/
inductive Event where
  | loadLoader
  | sha256Req (addr len : Nat)
  | eraseReq (start stop : Nat)
  | programReq (addr : Nat) (data : List Nat)
  | readReq (addr size : Nat)
deriving DecidableEq, Repr

/-- Oracle for the responses the chip side gives to each kind of request;
    the driver code under verification only observes these results. -/
structure FlashEnv where
  loadLoaderResp : Except Error Unit
  sha256Resp : Nat → Nat → Except Error (List Nat)
  eraseResp : Nat → Nat → Except Error Unit
  programResp : Nat → List Nat → Except Error Unit
  readResp : Nat → Nat → Except Error (List Nat)

/-- `Flasher::flash_program(addr, reader)`: the reader is a `Cursor` over
    `data` positioned at `pos`; `reader.read` into a 4000-byte buffer yields
    `min 4000 (data.length - pos)` bytes. Zero bytes returns 0 with nothing
    written; otherwise one `FlashProgram` frame is sent, the ACK awaited, and
    the byte count returned together with the advanced cursor position. -/
def flash_program (env : FlashEnv) (addr : Nat) (data : List Nat) (pos : Nat) :
    Except Error (Nat × Nat × List Event) :=
  let chunk := (data.drop pos).take 4000
  if chunk.length = 0 then .ok (0, pos, [])
  else
    match env.programResp addr chunk with
    | .error e => .error e
    | .ok _ => .ok (chunk.length, pos + chunk.length, [.programReq addr chunk])

/-- The program loop of `Flasher::load_segments`: repeatedly call
    `flash_program`, advance the address by the returned count, stop on 0. -/
def programLoop (env : FlashEnv) (addr : Nat) (data : List Nat) (pos : Nat) :
    Except Error (List Event) :=
  match h : flash_program env addr data pos with
  | .error e => .error e
  | .ok (sz, pos', evs) =>
    if hz : sz = 0 then .ok evs
    else
      match programLoop env (addr + sz) data pos' with
      | .error e => .error e
      | .ok rest => .ok (evs ++ rest)
termination_by data.length - pos
decreasing_by
  simp only [flash_program] at h
  split at h
  · exact absurd (by cases h; rfl) hz
  · split at h
    · cases h
    · cases h
      simp only [List.length_take, List.length_drop] at *
      omega

/-- The `FlashProgram` frames the program loop emits for the bytes of `l`
    starting at flash address `addr`: successive chunks of at most 4000 bytes,
    each at the address advanced by the sizes of the chunks before it. -/
def programEvents (addr : Nat) (l : List Nat) : List Event :=
  if l.length = 0 then []
  else .programReq addr (l.take 4000) ::
    programEvents (addr + (l.take 4000).length) (l.drop 4000)
termination_by l.length
decreasing_by
  simp only [List.length_drop]
  omega

/-- `Sha256::digest(&segment.data[0..segment.size()])` in `load_segments` and
    `check_segments`; the SHA-256 function itself is the `sha2` collaborator
    crate, so it is a parameter `hash` of the driver model. -/
def localHash (hash : List Nat → List Nat) (s : Segment) : List Nat :=
  hash (s.data.take s.size)

/-- The erase/program/verify tail of one `load_segments` iteration:
    `flash_erase(addr, addr + size)` (u32 addition wraps), the program loop
    from `Cursor::new(&segment.data)`, then the verifying `sha256_read`; a
    digest mismatch there is only warned about (the returned flag). -/
def eraseProgramVerify (env : FlashEnv) (hash : List Nat → List Nat)
    (s : Segment) : Except Error (List Event × Bool) :=
  match env.eraseResp s.addr ((s.addr + s.size) % 4294967296) with
  | .error e => .error e
  | .ok _ =>
    match programLoop env s.addr s.data 0 with
    | .error e => .error e
    | .ok evs =>
      match env.sha256Resp s.addr s.size with
      | .error e => .error e
      | .ok remote =>
        .ok (Event.eraseReq s.addr ((s.addr + s.size) % 4294967296) :: evs
              ++ [Event.sha256Req s.addr s.size],
             decide (remote ≠ localHash hash s))

/-- One iteration of the `for segment in segments` loop of
    `Flasher::load_segments`: if `force` is false the remote digest is queried
    first and a match skips the segment; otherwise (or on mismatch) the
    segment is erased, programmed and verified. -/
def loadSegment (env : FlashEnv) (hash : List Nat → List Nat) (force : Bool)
    (s : Segment) : Except Error (List Event × Bool) :=
  if force then eraseProgramVerify env hash s
  else
    match env.sha256Resp s.addr s.size with
    | .error e => .error e
    | .ok remote =>
      if remote = localHash hash s then .ok ([Event.sha256Req s.addr s.size], false)
      else
        match eraseProgramVerify env hash s with
        | .error e => .error e
        | .ok (evs, w) => .ok (Event.sha256Req s.addr s.size :: evs, w)

/-- The segment loop of `Flasher::load_segments` over a list of segments;
    the flag collects whether any verify warning was logged. -/
def loadSegmentsGo (env : FlashEnv) (hash : List Nat → List Nat) (force : Bool) :
    List Segment → Except Error (List Event × Bool)
  | [] => .ok ([], false)
  | s :: rest =>
    match loadSegment env hash force s with
    | .error e => .error e
    | .ok (evs, w) =>
      match loadSegmentsGo env hash force rest with
      | .error e => .error e
      | .ok (evs2, w2) => .ok (evs ++ evs2, w || w2)

/-- `Flasher::load_segments(force, segments)`: unconditionally calls
    `load_eflash_loader` first (modelled as one oracle step and a
    `loadLoader` event), then runs the segment loop. -/
def load_segments (env : FlashEnv) (hash : List Nat → List Nat) (force : Bool)
    (segments : List Segment) : Except Error (List Event × Bool) :=
  match env.loadLoaderResp with
  | .error e => .error e
  | .ok _ =>
    match loadSegmentsGo env hash force segments with
    | .error e => .error e
    | .ok (evs, w) => .ok (Event.loadLoader :: evs, w)

/-- The segment loop of `Flasher::check_segments`: per segment one
    `sha256_read` and a warn-only comparison against the local digest. -/
def checkSegmentsGo (env : FlashEnv) (hash : List Nat → List Nat) :
    List Segment → Except Error (List Event × Bool)
  | [] => .ok ([], false)
  | s :: rest =>
    match env.sha256Resp s.addr s.size with
    | .error e => .error e
    | .ok remote =>
      match checkSegmentsGo env hash rest with
      | .error e => .error e
      | .ok (evs, w) =>
        .ok (Event.sha256Req s.addr s.size :: evs,
             (decide (remote ≠ localHash hash s)) || w)

/-- `Flasher::check_segments(segments)`: unconditionally calls
    `load_eflash_loader` first, then the check loop. -/
def check_segments (env : FlashEnv) (hash : List Nat → List Nat)
    (segments : List Segment) : Except Error (List Event × Bool) :=
  match env.loadLoaderResp with
  | .error e => .error e
  | .ok _ =>
    match checkSegmentsGo env hash segments with
    | .error e => .error e
    | .ok (evs, w) => .ok (Event.loadLoader :: evs, w)

/-- `Flasher::load_segment_header`: `read_exact` 16 bytes from the loader
    blob (`input`), serialize a `LoadSegmentHeader` request via `update()`,
    then `read_response(18)`; the echoed bytes `resp[2..]` are compared with
    the sent header and a mismatch is only warned about (the returned flag).
    Returns the frame written to the link and that flag. -/
def load_segment_header (input : List Nat) (inbox : List Nat) :
    Except Error (List Nat × Bool) :=
  if input.length < 16 then .error .Io
  else
    match (LoadSegmentHeader.mk 0 (input.take 16)).update with
    | none => .error .Decode
    | some req =>
      match read_response 18 inbox with
      | .error e => .error e
      | .ok resp => .ok (req.to_bytes, decide (resp.drop 2 ≠ input.take 16))

/-- The `while cur < range.end` loop of `Flasher::dump_flash`: each round
    requests `min (range.end - cur) 4096` bytes at `cur`, appends the returned
    bytes to the sink and advances `cur` by however many bytes came back.
    `cur` not advancing (an empty response) never ends the loop, so the model
    carries fuel; `none` marks fuel running out, i.e. non-termination. -/
def dumpLoop (env : FlashEnv) (stop : Nat) (cur : Nat) (fuel : Nat) :
    Option (Except Error (List Event × List Nat)) :=
  match fuel with
  | 0 => if cur < stop then none else some (.ok ([], []))
  | fuel + 1 =>
    if cur < stop then
      match env.readResp cur (min (stop - cur) 4096) with
      | .error e => some (.error e)
      | .ok data =>
        match dumpLoop env stop (cur + data.length) fuel with
        | none => none
        | some (.error e) => some (.error e)
        | some (.ok (evs, out)) =>
          some (.ok (Event.readReq cur (min (stop - cur) 4096) :: evs, data ++ out))
    else some (.ok ([], []))

/-- `Flasher::dump_flash(range, writer)`: unconditionally calls
    `load_eflash_loader` first, then runs the read loop; the second component
    of the result is everything written to the sink. -/
def dump_flash (env : FlashEnv) (start stop fuel : Nat) :
    Option (Except Error (List Event × List Nat)) :=
  match env.loadLoaderResp with
  | .error e => some (.error e)
  | .ok _ =>
    match dumpLoop env stop start fuel with
    | none => none
    | some (.error e) => some (.error e)
    | some (.ok (evs, out)) => some (.ok (Event.loadLoader :: evs, out))

/-- The `(addr, size)` pairs of the `FlashRead` requests `dump_flash` issues
    for the range `[cur, stop)`: block reads of `min (stop - cur) 4096`. -/
def dumpReqs (cur stop : Nat) : List (Nat × Nat) :=
  if cur < stop then
    (cur, min (stop - cur) 4096) :: dumpReqs (cur + min (stop - cur) 4096) stop
  else []
termination_by stop - cur
decreasing_by
  omega

/-- The link-level happenings of `start_connection`/`handshake`: the hardware
    reset, the 0x55 auto-baud train write, and each `read_response(0)` poll. -/
inductive ConnEvent where
  | reset
  | trainWrite
  | poll (ok : Bool)
deriving DecidableEq, Repr

/-- Distinguishes the `read_response(0)` poll events. -/
def ConnEvent.isPoll : ConnEvent → Bool
  | .poll _ => true
  | _ => false

/-- The `for _ in 0..5` poll loop of `Flasher::handshake`: `polls` is the
    oracle for whether the k-th `read_response(0)` call of the session
    succeeds, `c` the index of the next call. Returns the result, the new
    index, and the poll events. After five failures: `Error::Timeout`. -/
def handshakeGo (polls : Nat → Bool) : Nat → Nat → Except Error Unit × Nat × List ConnEvent
  | 0, c => (.error .Timeout, c, [])
  | n + 1, c =>
    if polls c then (.ok (), c + 1, [.poll true])
    else
      let r := handshakeGo polls n (c + 1)
      (r.1, r.2.1, .poll false :: r.2.2)

/-- `Flasher::handshake`: under the scoped 200 ms timeout, write the 0x55
    training bytes, flush, sleep, then poll `read_response(0)` up to 5 times
    (the write and flush of the train are link-collaborator calls and are
    modelled as succeeding; their failure would surface unchanged). -/
def handshake (polls : Nat → Bool) (c : Nat) : Except Error Unit × Nat × List ConnEvent :=
  let r := handshakeGo polls 5 c
  (r.1, r.2.1, .trainWrite :: r.2.2)

/-- The `for i in 1..=10` retry loop of `Flasher::start_connection`: each
    round tests `self.handshake().is_ok()`, the first success returns `Ok`,
    ten failures give `Error::ConnectionFailed`. -/
def startConnectionGo (polls : Nat → Bool) : Nat → Nat → Except Error Unit × Nat × List ConnEvent
  | 0, c => (.error .ConnectionFailed, c, [])
  | n + 1, c =>
    let h := handshake polls c
    if h.1.isOk then (.ok (), h.2.1, h.2.2)
    else
      let r := startConnectionGo polls n h.2.1
      (r.1, r.2.1, h.2.2 ++ r.2.2)

/-- `Flasher::start_connection`: one `reset_to_flash`, then the retry loop. -/
def start_connection (polls : Nat → Bool) (c : Nat) :
    Except Error Unit × Nat × List ConnEvent :=
  let r := startConnectionGo polls 10 c
  (r.1, r.2.1, .reset :: r.2.2)

/-- An oracle on which every request succeeds: digests read back as `[]`,
    flash reads return exactly the requested number of `0xab` bytes. -/
def envAck : FlashEnv where
  loadLoaderResp := .ok ()
  sha256Resp := fun _ _ => .ok []
  eraseResp := fun _ _ => .ok ()
  programResp := fun _ _ => .ok ()
  readResp := fun _ size => .ok (List.replicate size 0xab)

theorem u16le_lenField (a b : Nat) (L : Nat) (rest : List Nat) (hL : L < 65536) :
    lenField (a :: b :: u16le L ++ rest) = L := by
  simp [lenField, u16le, List.getD]
  omega

/-- C2: for every request message with a dynamic length field, the serialized
    frame's embedded `u16` length field equals the byte length of the payload
    that follows it (for `FlashProgram` that payload is `addr` plus `data`, so
    the field equals `len(data) + 4`), recomputed by `update()` from the
    payload at serialization time regardless of the field's prior value. -/
theorem C2_length_fields (bh sh sd pd : List Nat) (L1 L2 L3 L4 addr : Nat)
    (h1 : bh.length < 65536) (h2 : sh.length < 65536) (h3 : sd.length < 65536)
    (h4 : pd.length + 4 < 65536) :
    (∃ m, (LoadBootHeader.mk L1 bh).update = some m ∧
      lenField m.to_bytes = (m.to_bytes.drop 4).length) ∧
    (∃ m, (LoadSegmentHeader.mk L2 sh).update = some m ∧
      lenField m.to_bytes = (m.to_bytes.drop 4).length) ∧
    (∃ m, (LoadSegmentData.mk L3 sd).update = some m ∧
      lenField m.to_bytes = (m.to_bytes.drop 4).length) ∧
    (∃ m, (FlashProgram.mk L4 addr pd).update = some m ∧
      lenField m.to_bytes = (m.to_bytes.drop 4).length ∧
      lenField m.to_bytes = pd.length + 4) := by
  refine ⟨⟨⟨bh.length, bh⟩, ?_, ?_⟩, ⟨⟨sh.length, sh⟩, ?_, ?_⟩, ⟨⟨sd.length, sd⟩, ?_, ?_⟩,
    ⟨⟨(pd.length % 65536 + 4) % 65536, addr, pd⟩, ?_, ?_, ?_⟩⟩
  · simp [LoadBootHeader.update, h1]
  · rw [LoadBootHeader.to_bytes, u16le_lenField _ _ _ _ h1]
    simp [u16le]
  · simp [LoadSegmentHeader.update, h2]
  · rw [LoadSegmentHeader.to_bytes, u16le_lenField _ _ _ _ h2]
    simp [u16le]
  · simp [LoadSegmentData.update, h3]
  · rw [LoadSegmentData.to_bytes, u16le_lenField _ _ _ _ h3]
    simp [u16le]
  · simp [FlashProgram.update, FlashProgram.lenVal]
  · have hlt : (pd.length % 65536 + 4) % 65536 < 65536 := Nat.mod_lt _ (by norm_num)
    simp only [FlashProgram.to_bytes]
    rw [List.append_assoc, u16le_lenField _ _ _ _ hlt]
    simp [u16le, u32le]
    omega
  · have hlt : (pd.length % 65536 + 4) % 65536 < 65536 := Nat.mod_lt _ (by norm_num)
    simp only [FlashProgram.to_bytes]
    rw [List.append_assoc, u16le_lenField _ _ _ _ hlt]
    omega

theorem C2_length_fields_witness :
    (∃ m, (LoadBootHeader.mk 0 (List.replicate 176 0xaa)).update = some m ∧
      lenField m.to_bytes = (m.to_bytes.drop 4).length) ∧
    (∃ m, (LoadSegmentHeader.mk 0 (List.replicate 16 0xbb)).update = some m ∧
      lenField m.to_bytes = (m.to_bytes.drop 4).length) ∧
    (∃ m, (LoadSegmentData.mk 0 [1, 2, 3]).update = some m ∧
      lenField m.to_bytes = (m.to_bytes.drop 4).length) ∧
    (∃ m, (FlashProgram.mk 0 4096 [9, 8, 7]).update = some m ∧
      lenField m.to_bytes = (m.to_bytes.drop 4).length ∧
      lenField m.to_bytes = [9, 8, 7].length + 4) :=
  C2_length_fields (List.replicate 176 0xaa) (List.replicate 16 0xbb) [1, 2, 3]
    [9, 8, 7] 0 0 0 0 4096 (by norm_num [List.length_replicate])
    (by norm_num [List.length_replicate]) (by norm_num) (by norm_num)

theorem read_response_ack (expected : Nat) (inbox : List Nat)
    (hnk : isNack (inbox.take 2) = false) (h2 : 2 < expected)
    (hlen : expected ≤ inbox.length) :
    read_response expected inbox = .ok (inbox.take expected) := by
  unfold read_response
  rw [if_neg (show ¬ inbox.length < 2 by omega),
    if_neg (show ¬ isNack (inbox.take 2) = true by simp [hnk]),
    if_pos h2, if_neg (show ¬ inbox.length < expected by omega)]

/-- C8: `sha256_read(addr, len)` sends exactly one `Sha256Read` request frame
    and reads a response of exactly 34 bytes (its result only depends on the
    first 34 bytes available on the link), consisting of 2 status bytes
    followed by the 32-byte digest, and returns that 32-byte digest. -/
theorem C8_sha256_read (addr len : Nat) (inbox : List Nat)
    (hstatus : inbox.take 2 = [0x20, 0x00]) (hlen : 34 ≤ inbox.length) :
    sha256_read addr len inbox =
      .ok ([(Sha256Read.mk addr len).to_bytes], (inbox.take 34).drop 2) ∧
    ((inbox.take 34).drop 2).length = 32 ∧
    sha256_read addr len inbox = sha256_read addr len (inbox.take 34) := by
  have hnk : isNack (inbox.take 2) = false := by
    rw [hstatus]
    rfl
  have hrr : read_response 34 inbox = .ok (inbox.take 34) :=
    read_response_ack 34 inbox hnk (by norm_num) hlen
  have htt : (inbox.take 34).take 2 = [0x20, 0x00] := by
    rw [List.take_take]
    simpa using hstatus
  have hlt : (inbox.take 34).length = 34 := by
    rw [List.length_take]
    omega
  have hd2 : ((inbox.take 34).drop 2).length = 32 := by
    rw [List.length_drop, hlt]
  have hfb : Sha256ReadResp.from_bytes (inbox.take 34) =
      .ok ⟨(inbox.take 34).drop 2⟩ := by
    rw [Sha256ReadResp.from_bytes, if_pos htt, if_pos (by omega)]
    congr 1
    exact congrArg Sha256ReadResp.mk (List.take_of_length_le (by omega))
  refine ⟨?_, hd2, ?_⟩
  · rw [sha256_read, hrr]
    simp only [hfb]
  · have hrr2 : read_response 34 (inbox.take 34) = .ok (inbox.take 34) := by
      have := read_response_ack 34 (inbox.take 34)
        (by rw [htt]; rfl) (by norm_num) (by omega)
      rwa [List.take_take, show min 34 34 = 34 from rfl] at this
    rw [sha256_read, hrr, sha256_read, hrr2]

theorem C8_sha256_read_witness :
    sha256_read 4096 256 (0x20 :: 0x00 :: List.replicate 32 0x5a) =
      .ok ([(Sha256Read.mk 4096 256).to_bytes],
        ((0x20 :: 0x00 :: List.replicate 32 0x5a).take 34).drop 2) ∧
    (((0x20 :: 0x00 :: List.replicate 32 0x5a).take 34).drop 2).length = 32 ∧
    sha256_read 4096 256 (0x20 :: 0x00 :: List.replicate 32 0x5a) =
      sha256_read 4096 256 ((0x20 :: 0x00 :: List.replicate 32 0x5a).take 34) :=
  C8_sha256_read 4096 256 (0x20 :: 0x00 :: List.replicate 32 0x5a)
    (by simp) (by simp)

theorem flash_program_eof (env : FlashEnv) (addr : Nat) (data : List Nat)
    (pos : Nat) (h : data.length ≤ pos) :
    flash_program env addr data pos = .ok (0, pos, []) := by
  have hc : ((data.drop pos).take 4000).length = 0 := by
    simp only [List.length_take, List.length_drop]
    omega
  simp [flash_program, hc]

theorem flash_program_chunk (env : FlashEnv) (addr : Nat) (data : List Nat)
    (pos : Nat) (hlt : pos < data.length)
    (hp : env.programResp addr ((data.drop pos).take 4000) = .ok ()) :
    flash_program env addr data pos =
      .ok (((data.drop pos).take 4000).length,
        pos + ((data.drop pos).take 4000).length,
        [Event.programReq addr ((data.drop pos).take 4000)]) := by
  have hc : ¬ ((data.drop pos).take 4000).length = 0 := by
    simp only [List.length_take, List.length_drop]
    omega
  simp [flash_program, hc, hp]
  omega

theorem programEvents_nil (addr : Nat) : programEvents addr [] = [] := by
  rw [programEvents]
  simp

theorem programLoop_eof (env : FlashEnv) (addr : Nat) (data : List Nat)
    (pos : Nat) (h : data.length ≤ pos) :
    programLoop env addr data pos = .ok [] := by
  rw [programLoop.eq_def]
  split
  · rename_i e heq
    rw [flash_program_eof env addr data pos h] at heq
    cases heq
  · rename_i sz pos' evs heq
    rw [flash_program_eof env addr data pos h] at heq
    simp only [Except.ok.injEq, Prod.mk.injEq] at heq
    obtain ⟨rfl, rfl, rfl⟩ := heq
    simp

theorem drop_after_chunk (data : List Nat) (pos : Nat) :
    (data.drop pos).drop 4000 = data.drop (pos + ((data.drop pos).take 4000).length) := by
  rw [List.drop_drop]
  rcases le_or_lt (data.length - pos) 4000 with h | h
  · rw [List.drop_eq_nil_of_le, List.drop_eq_nil_of_le]
    · simp only [List.length_take, List.length_drop]
      omega
    · omega
  · congr 1
    simp only [List.length_take, List.length_drop]
    omega

theorem programLoop_acks (env : FlashEnv)
    (hp : ∀ a l, env.programResp a l = .ok ()) (data : List Nat) :
    ∀ fuel addr pos, data.length - pos ≤ fuel →
      programLoop env addr data pos = .ok (programEvents addr (data.drop pos)) := by
  intro fuel
  induction fuel with
  | zero =>
    intro addr pos hf
    have hle : data.length ≤ pos := by omega
    rw [programLoop_eof env addr data pos hle, List.drop_eq_nil_of_le hle,
      programEvents_nil]
  | succ fuel ih =>
    intro addr pos hf
    rcases le_or_lt data.length pos with hle | hlt
    · rw [programLoop_eof env addr data pos hle, List.drop_eq_nil_of_le hle,
        programEvents_nil]
    · have hcl : ((data.drop pos).take 4000).length = min 4000 (data.length - pos) := by
        simp [List.length_take, List.length_drop]
      have hcne : ¬ ((data.drop pos).take 4000).length = 0 := by
        rw [hcl]
        omega
      rw [programLoop.eq_def]
      split
      · rename_i e heq
        rw [flash_program_chunk env addr data pos hlt (hp _ _)] at heq
        cases heq
      · rename_i sz pos' evs heq
        rw [flash_program_chunk env addr data pos hlt (hp _ _)] at heq
        simp only [Except.ok.injEq, Prod.mk.injEq] at heq
        obtain ⟨rfl, rfl, rfl⟩ := heq
        rw [dif_neg hcne,
          ih (addr + ((data.drop pos).take 4000).length)
            (pos + ((data.drop pos).take 4000).length) (by rw [hcl] at *; omega)]
        conv_rhs => rw [programEvents]
        rw [if_neg (by simp only [List.length_drop]; omega), ← drop_after_chunk]
        simp

/-- C4: `flash_program(addr, reader)` reads `min 4000 remaining` bytes from
    the reader: at EOF it returns 0 having written nothing to the link;
    otherwise it sends exactly one `FlashProgram` frame carrying the bytes
    read and, with the ACK received, returns the number of bytes read, the
    cursor advanced by exactly that count. The caller's loop therefore
    produces exactly the 4000-byte chunking of the remaining data and
    terminates on a final read returning 0 — also when the remaining size is
    an exact multiple of 4000 (`programLoop` is total and its result below is
    `.ok` of the chunk frames). -/
theorem C4_flash_program (env : FlashEnv) (addr : Nat) (data : List Nat)
    (pos : Nat) (hp : ∀ a l, env.programResp a l = .ok ()) :
    (data.length ≤ pos → flash_program env addr data pos = .ok (0, pos, [])) ∧
    (pos < data.length →
      flash_program env addr data pos =
        .ok (((data.drop pos).take 4000).length,
          pos + ((data.drop pos).take 4000).length,
          [Event.programReq addr ((data.drop pos).take 4000)]) ∧
      ((data.drop pos).take 4000).length = min 4000 (data.length - pos) ∧
      0 < ((data.drop pos).take 4000).length) ∧
    programLoop env addr data pos = .ok (programEvents addr (data.drop pos)) := by
  refine ⟨fun h => flash_program_eof env addr data pos h, fun h => ⟨?_, ?_, ?_⟩, ?_⟩
  · exact flash_program_chunk env addr data pos h (hp _ _)
  · simp [List.length_take, List.length_drop]
  · simp only [List.length_take, List.length_drop]
    omega
  · exact programLoop_acks env hp data (data.length - pos) addr pos le_rfl

theorem C4_flash_program_witness :
    flash_program envAck 16 (List.replicate 8000 3) 8000 = .ok (0, 8000, []) ∧
    programLoop envAck 16 (List.replicate 8000 3) 0 =
      .ok (programEvents 16 ((List.replicate 8000 3).drop 0)) :=
  ⟨(C4_flash_program envAck 16 (List.replicate 8000 3) 8000
      (fun _ _ => rfl)).1 (by rw [List.length_replicate]),
    (C4_flash_program envAck 16 (List.replicate 8000 3) 0
      (fun _ _ => rfl)).2.2⟩

/-- C1: per segment in `load_segments`: with `force = false` the driver first
    queries `sha256_read(addr, size)` and an equal remote digest skips the
    segment entirely — the event trace is just that query, no erase and no
    program; with `force = true` no pre-query happens and the segment is
    erased and programmed whatever the remote digest oracle holds — the trace
    is the erase, the program chunks, then only the post-program verify. -/
theorem C1_skip_or_force :
    (∀ (env : FlashEnv) (hash : List Nat → List Nat) (s : Segment),
      env.sha256Resp s.addr s.size = .ok (localHash hash s) →
      loadSegment env hash false s = .ok ([Event.sha256Req s.addr s.size], false)) ∧
    (∀ (env : FlashEnv) (hash : List Nat → List Nat) (s : Segment),
      (∀ a b, env.eraseResp a b = .ok ()) →
      (∀ a l, env.programResp a l = .ok ()) →
      (∀ a l, ∃ d, env.sha256Resp a l = .ok d) →
      ∃ w, loadSegment env hash true s =
        .ok (Event.eraseReq s.addr ((s.addr + s.size) % 4294967296) ::
          programEvents s.addr s.data ++ [Event.sha256Req s.addr s.size], w)) := by
  constructor
  · intro env hash s h
    simp [loadSegment, h]
  · intro env hash s he hp hs
    obtain ⟨d, hd⟩ := hs s.addr s.size
    have hloop : programLoop env s.addr s.data 0 =
        .ok (programEvents s.addr (s.data.drop 0)) :=
      programLoop_acks env hp s.data (s.data.length - 0) s.addr 0 le_rfl
    rw [List.drop_zero] at hloop
    exact ⟨decide (d ≠ localHash hash s), by
      simp [loadSegment, eraseProgramVerify, he, hloop, hd]⟩

theorem C1_skip_or_force_witness :
    loadSegment envAck (fun _ => []) false (Segment.mk 0 [1, 2]) =
      .ok ([Event.sha256Req 0 2], false) ∧
    ∃ w, loadSegment envAck (fun _ => []) true (Segment.mk 0 [1, 2]) =
      .ok (Event.eraseReq 0 2 :: programEvents 0 [1, 2] ++ [Event.sha256Req 0 2], w) :=
  ⟨C1_skip_or_force.1 envAck (fun _ => []) (Segment.mk 0 [1, 2]) rfl,
    C1_skip_or_force.2 envAck (fun _ => []) (Segment.mk 0 [1, 2])
      (fun _ _ => rfl) (fun _ _ => rfl) (fun _ _ => ⟨[], rfl⟩)⟩

/-- C5: a post-program SHA-256 verify mismatch in `load_segments` and a
    `LoadSegmentHeader` echo mismatch in `load_segment_header` are warnings
    only: both operations still return `Ok` (the mismatch shows up solely in
    the returned warning flag). -/
theorem C5_warnings_not_errors :
    (∀ (env : FlashEnv) (hash : List Nat → List Nat) (s : Segment) (d : List Nat),
      env.loadLoaderResp = .ok () →
      (∀ a b, env.eraseResp a b = .ok ()) →
      (∀ a l, env.programResp a l = .ok ()) →
      (∀ a l, env.sha256Resp a l = .ok d) →
      d ≠ localHash hash s →
      ∃ evs, load_segments env hash true [s] = .ok (evs, true)) ∧
    (∀ (input inbox : List Nat),
      16 ≤ input.length → 18 ≤ inbox.length →
      isNack (inbox.take 2) = false →
      (inbox.take 18).drop 2 ≠ input.take 16 →
      ∃ frame, load_segment_header input inbox = .ok (frame, true)) := by
  constructor
  · intro env hash s d hll he hp hs hmis
    have hloop : programLoop env s.addr s.data 0 =
        .ok (programEvents s.addr (s.data.drop 0)) :=
      programLoop_acks env hp s.data (s.data.length - 0) s.addr 0 le_rfl
    rw [List.drop_zero] at hloop
    exact ⟨Event.loadLoader :: (Event.eraseReq s.addr ((s.addr + s.size) % 4294967296) ::
        programEvents s.addr s.data ++ [Event.sha256Req s.addr s.size]), by
      simp [load_segments, loadSegmentsGo, loadSegment, eraseProgramVerify,
        hll, he, hloop, hs, hmis]⟩
  · intro input inbox h16 h18 hnk hmis
    have hlt16 : (input.take 16).length = 16 := by
      rw [List.length_take]
      omega
    have hupd : (LoadSegmentHeader.mk 0 (input.take 16)).update =
        some (LoadSegmentHeader.mk 16 (input.take 16)) := by
      simp [LoadSegmentHeader.update, hlt16]
    refine ⟨(LoadSegmentHeader.mk 16 (input.take 16)).to_bytes, ?_⟩
    rw [load_segment_header, if_neg (by omega), hupd,
      read_response_ack 18 inbox hnk (by norm_num) h18]
    simp [hmis]

theorem C5_warnings_not_errors_witness :
    (∃ evs, load_segments { envAck with sha256Resp := fun _ _ => .ok [0] }
      (fun _ => []) true [Segment.mk 0 [1]] = .ok (evs, true)) ∧
    (∃ frame, load_segment_header (List.replicate 16 1) (List.replicate 18 0) =
      .ok (frame, true)) :=
  ⟨C5_warnings_not_errors.1 { envAck with sha256Resp := fun _ _ => .ok [0] }
      (fun _ => []) (Segment.mk 0 [1]) [0] rfl (fun _ _ => rfl) (fun _ _ => rfl)
      (fun _ _ => rfl) (by decide),
    C5_warnings_not_errors.2 (List.replicate 16 1) (List.replicate 18 0)
      (by simp) (by simp) (by decide) (by decide)⟩

/-- C9 counterexample: with `force = true` a zero-length segment still issues
    a `flash_erase` request (for the empty range from `addr` to `addr`), so
    "for every zero-length segment passed to load_segments, no flash_erase
    request is issued" is false as stated: `Event.eraseReq 7 7` is in the
    trace of this call. -/
theorem C9_counterexample :
    loadSegment envAck (fun _ => []) true (Segment.mk 7 []) =
      .ok ([Event.eraseReq 7 7, Event.sha256Req 7 0], false) := by
  have h := programLoop_eof envAck 7 [] 0 (by simp)
  simp only [envAck] at h
  simp [loadSegment, eraseProgramVerify, envAck, h, localHash, Segment.size]

/-- C9 (amended): a zero-length segment issues no `flash_program` request in
    either mode; when `force` is false and the remote digest of the empty
    range equals the hash of the empty byte string the segment is skipped
    with no erase and no program; when `force` is true an erase of the empty
    range from `addr` to `addr` is still issued (and the final verify query),
    but no program frame. -/
theorem C9_zero_length (env : FlashEnv) (hash : List Nat → List Nat) (addr : Nat)
    (haddr : addr < 4294967296) :
    (env.sha256Resp addr 0 = .ok (hash []) →
      loadSegment env hash false (Segment.mk addr []) =
        .ok ([Event.sha256Req addr 0], false)) ∧
    ((∀ a b, env.eraseResp a b = .ok ()) →
      (∀ a l, ∃ d, env.sha256Resp a l = .ok d) →
      ∃ w, loadSegment env hash true (Segment.mk addr []) =
        .ok ([Event.eraseReq addr addr, Event.sha256Req addr 0], w)) := by
  constructor
  · intro h
    simp [loadSegment, localHash, Segment.size] at h ⊢
    simp [h]
  · intro he hs
    obtain ⟨d, hd⟩ := hs addr 0
    have hl := programLoop_eof env addr [] 0 (by simp)
    refine ⟨decide (d ≠ localHash hash (Segment.mk addr [])), ?_⟩
    simp [loadSegment, eraseProgramVerify, he, hl, Segment.size,
      Nat.mod_eq_of_lt haddr] at hd ⊢
    simp [hd]

theorem C9_zero_length_witness :
    (loadSegment envAck (fun _ => []) false (Segment.mk 7 []) =
      .ok ([Event.sha256Req 7 0], false)) ∧
    (∃ w, loadSegment envAck (fun _ => []) true (Segment.mk 7 []) =
      .ok ([Event.eraseReq 7 7, Event.sha256Req 7 0], w)) :=
  ⟨(C9_zero_length envAck (fun _ => []) 7 (by norm_num)).1 rfl,
    (C9_zero_length envAck (fun _ => []) 7 (by norm_num)).2
      (fun _ _ => rfl) (fun _ _ => ⟨[], rfl⟩)⟩

theorem dumpLoop_done (env : FlashEnv) (stop cur fuel : Nat) (h : stop ≤ cur) :
    dumpLoop env stop cur fuel = some (.ok ([], [])) := by
  cases fuel <;> simp [dumpLoop, Nat.not_lt.mpr h]

theorem dumpLoop_exact (env : FlashEnv) (stop : Nat)
    (hread : ∀ a s, ∃ d, env.readResp a s = .ok d ∧ d.length = s) :
    ∀ fuel cur, stop - cur ≤ fuel →
      ∃ out, dumpLoop env stop cur fuel =
        some (.ok ((dumpReqs cur stop).map (fun p => Event.readReq p.1 p.2), out)) ∧
        out.length = stop - cur := by
  intro fuel
  induction fuel with
  | zero =>
    intro cur hf
    rw [dumpLoop_done env stop cur 0 (by omega), dumpReqs, if_neg (by omega)]
    exact ⟨[], by simp, by simp only [List.length_nil]; omega⟩
  | succ fuel ih =>
    intro cur hf
    rcases le_or_lt stop cur with h | h
    · rw [dumpLoop_done env stop cur _ h, dumpReqs, if_neg (by omega)]
      exact ⟨[], by simp, by simp only [List.length_nil]; omega⟩
    · obtain ⟨d, hd, hdl⟩ := hread cur (min (stop - cur) 4096)
      obtain ⟨out, hout, holen⟩ := ih (cur + d.length) (by omega)
      refine ⟨d ++ out, ?_, ?_⟩
      · rw [dumpLoop, if_pos h, hd]
        dsimp only
        rw [hout]
        conv_rhs => rw [dumpReqs, if_pos h]
        rw [List.map_cons]
        rw [hdl]
      · rw [List.length_append, holen, hdl]
        omega

theorem dumpLoop_terminates (env : FlashEnv) (stop : Nat)
    (hne : ∀ a s d, 0 < s → env.readResp a s = .ok d → 0 < d.length) :
    ∀ fuel cur, stop - cur ≤ fuel → dumpLoop env stop cur fuel ≠ none := by
  intro fuel
  induction fuel with
  | zero =>
    intro cur hf
    rw [dumpLoop_done env stop cur 0 (by omega)]
    simp
  | succ fuel ih =>
    intro cur hf
    rcases le_or_lt stop cur with h | h
    · rw [dumpLoop_done env stop cur _ h]
      simp
    · rw [dumpLoop, if_pos h]
      cases hd : env.readResp cur (min (stop - cur) 4096) with
      | error e => simp
      | ok d =>
        have h1 : 0 < d.length := hne _ _ _ (by omega) hd
        have h2 := ih (cur + d.length) (by omega)
        dsimp only
        cases hloop : dumpLoop env stop (cur + d.length) fuel with
        | none => exact absurd hloop h2
        | some r =>
          cases r with
          | error e => simp
          | ok p =>
            obtain ⟨evs, out⟩ := p
            simp

theorem dumpReqs_head (cur stop : Nat) (q : Nat × Nat)
    (h : (dumpReqs cur stop).head? = some q) : q.1 = cur := by
  rw [dumpReqs] at h
  split at h
  · simp at h
    rw [← h]
  · simp at h

theorem dumpReqs_mem (stop : Nat) : ∀ fuel cur, stop - cur ≤ fuel →
    ∀ p ∈ dumpReqs cur stop,
      p.2 = min (stop - p.1) 4096 ∧ p.1 < stop ∧ p.1 + p.2 ≤ stop := by
  intro fuel
  induction fuel with
  | zero =>
    intro cur hf p hp
    rw [dumpReqs, if_neg (by omega)] at hp
    simp at hp
  | succ fuel ih =>
    intro cur hf p hp
    rcases le_or_lt stop cur with h | h
    · rw [dumpReqs, if_neg (by omega)] at hp
      simp at hp
    · rw [dumpReqs, if_pos h] at hp
      rcases List.mem_cons.mp hp with h1 | h1
      · rw [h1]
        refine ⟨rfl, h, ?_⟩
        simp only
        omega
      · exact ih (cur + min (stop - cur) 4096) (by omega) p h1

theorem dumpReqs_chain (stop : Nat) : ∀ fuel cur, stop - cur ≤ fuel →
    List.Chain' (fun p q : Nat × Nat => q.1 = p.1 + p.2) (dumpReqs cur stop) := by
  intro fuel
  induction fuel with
  | zero =>
    intro cur hf
    rw [dumpReqs, if_neg (by omega)]
    simp
  | succ fuel ih =>
    intro cur hf
    rcases le_or_lt stop cur with h | h
    · rw [dumpReqs, if_neg (by omega)]
      simp
    · rw [dumpReqs, if_pos h]
      refine List.chain'_cons'.mpr ⟨?_, ih (cur + min (stop - cur) 4096) (by omega)⟩
      intro q hq
      rw [dumpReqs_head _ _ _ hq]

/-- C6: for `start ≤ stop`, when `load_eflash_loader` succeeds and every
    `flash_read` returns exactly the requested number of bytes, `dump_flash`
    issues exactly the reads described by `dumpReqs` — sizes
    `min (remaining) 4096` at strictly increasing addresses from `start` —
    and writes exactly `stop - start` bytes to the sink. -/
theorem C6_dump_flash (env : FlashEnv) (start stop : Nat) (hle : start ≤ stop)
    (hload : env.loadLoaderResp = .ok ())
    (hread : ∀ a s, ∃ d, env.readResp a s = .ok d ∧ d.length = s) :
    ∃ out, dump_flash env start stop (stop - start) =
      some (.ok (Event.loadLoader ::
        (dumpReqs start stop).map (fun p => Event.readReq p.1 p.2), out)) ∧
      out.length = stop - start := by
  obtain ⟨out, hout, holen⟩ :=
    dumpLoop_exact env stop hread (stop - start) start le_rfl
  exact ⟨out, by rw [dump_flash, hload, hout], holen⟩

theorem C6_dump_flash_witness :
    (∃ out, dump_flash envAck 0 10240 (10240 - 0) =
      some (.ok (Event.loadLoader ::
        (dumpReqs 0 10240).map (fun p => Event.readReq p.1 p.2), out)) ∧
      out.length = 10240 - 0) ∧
    dumpReqs 0 10240 = [(0, 4096), (4096, 4096), (8192, 2048)] := by
  constructor
  · exact C6_dump_flash envAck 0 10240 (by omega) rfl
      (fun a s => ⟨List.replicate s 0xab, rfl, by simp⟩)
  · rw [dumpReqs, if_pos (by norm_num)]
    norm_num
    rw [dumpReqs, if_pos (by norm_num)]
    norm_num
    rw [dumpReqs, if_pos (by norm_num)]
    norm_num
    rw [dumpReqs, if_neg (by norm_num)]

/-- C10: provided every `flash_read` response for the (always positive)
    requested sizes is non-empty, the `dump_flash` read loop terminates
    (fuel `stop - cur` already suffices, so `none` — non-termination — is
    impossible); and when additionally each read returns exactly the
    requested size, the loop's reads are `dumpReqs cur stop`, whose
    addresses strictly increase by the returned payload length each
    iteration and never pass `stop`. -/
theorem C10_dump_loop_termination (env : FlashEnv) (stop cur : Nat)
    (hne : ∀ a s d, 0 < s → env.readResp a s = .ok d → 0 < d.length) :
    dumpLoop env stop cur (stop - cur) ≠ none ∧
    ((∀ a s, ∃ d, env.readResp a s = .ok d ∧ d.length = s) →
      ∀ evs out, dumpLoop env stop cur (stop - cur) = some (.ok (evs, out)) →
        evs = (dumpReqs cur stop).map (fun p => Event.readReq p.1 p.2) ∧
        List.Chain' (fun p q : Nat × Nat => q.1 = p.1 + p.2) (dumpReqs cur stop) ∧
        ∀ p ∈ dumpReqs cur stop, 0 < p.2 ∧ p.1 + p.2 ≤ stop) := by
  refine ⟨dumpLoop_terminates env stop hne (stop - cur) cur le_rfl, ?_⟩
  intro hread evs out hrun
  obtain ⟨out', hout', _⟩ := dumpLoop_exact env stop hread (stop - cur) cur le_rfl
  rw [hrun] at hout'
  refine ⟨?_, dumpReqs_chain stop (stop - cur) cur le_rfl, ?_⟩
  · simp only [Option.some.injEq, Except.ok.injEq, Prod.mk.injEq] at hout'
    exact hout'.1
  · intro p hp
    obtain ⟨h1, h2, h3⟩ := dumpReqs_mem stop (stop - cur) cur le_rfl p hp
    refine ⟨?_, h3⟩
    omega

theorem C10_dump_loop_termination_witness :
    dumpLoop envAck 5000 0 (5000 - 0) ≠ none ∧
    ((∀ a s, ∃ d, envAck.readResp a s = .ok d ∧ d.length = s) →
      ∀ evs out, dumpLoop envAck 5000 0 (5000 - 0) = some (.ok (evs, out)) →
        evs = (dumpReqs 0 5000).map (fun p => Event.readReq p.1 p.2) ∧
        List.Chain' (fun p q : Nat × Nat => q.1 = p.1 + p.2) (dumpReqs 0 5000) ∧
        ∀ p ∈ dumpReqs 0 5000, 0 < p.2 ∧ p.1 + p.2 ≤ 5000) :=
  C10_dump_loop_termination envAck 5000 0
    (fun a s d hs hd => by
      simp only [envAck] at hd
      cases hd
      simp only [List.length_replicate]
      omega)

theorem handshakeGo_ok_iff (polls : Nat → Bool) :
    ∀ n c, (handshakeGo polls n c).1 = .ok () ↔
      ∃ k, k < n ∧ polls (c + k) = true := by
  intro n
  induction n with
  | zero =>
    intro c
    simp [handshakeGo]
  | succ n ih =>
    intro c
    by_cases hp : polls c
    · constructor
      · intro _
        exact ⟨0, by omega, by simpa using hp⟩
      · intro _
        simp [handshakeGo, hp]
    · have hh : (handshakeGo polls (n + 1) c).1 = (handshakeGo polls n (c + 1)).1 := by
        simp [handshakeGo, hp]
      rw [hh, ih (c + 1)]
      constructor
      · rintro ⟨k, hk, hpk⟩
        refine ⟨k + 1, by omega, ?_⟩
        rw [show c + (k + 1) = c + 1 + k by omega]
        exact hpk
      · rintro ⟨k, hk, hpk⟩
        cases k with
        | zero =>
          rw [Nat.add_zero] at hpk
          exact absurd hpk hp
        | succ k =>
          refine ⟨k, by omega, ?_⟩
          rw [show c + 1 + k = c + (k + 1) by omega]
          exact hpk

theorem handshakeGo_fail (polls : Nat → Bool) :
    ∀ n c, (handshakeGo polls n c).1 = .ok () ∨
      ((handshakeGo polls n c).1 = .error .Timeout ∧
        (handshakeGo polls n c).2.1 = c + n ∧
        (∀ k, k < n → polls (c + k) = false)) := by
  intro n
  induction n with
  | zero =>
    intro c
    right
    exact ⟨by simp [handshakeGo], by simp [handshakeGo], by omega⟩
  | succ n ih =>
    intro c
    by_cases hp : polls c
    · left
      simp [handshakeGo, hp]
    · rcases ih (c + 1) with h | ⟨h1, h2, h3⟩
      · left
        simp [handshakeGo, hp, h]
      · right
        refine ⟨by simp [handshakeGo, hp, h1], ?_, ?_⟩
        · have : (handshakeGo polls (n + 1) c).2.1 = (handshakeGo polls n (c + 1)).2.1 := by
            simp [handshakeGo, hp]
          rw [this, h2]
          omega
        · intro k hk
          cases k with
          | zero => simpa using hp
          | succ k =>
            rw [show c + (k + 1) = c + 1 + k by omega]
            exact h3 k (by omega)

theorem handshakeGo_events_polls (polls : Nat → Bool) :
    ∀ n c, ∀ e ∈ (handshakeGo polls n c).2.2, e.isPoll = true := by
  intro n
  induction n with
  | zero =>
    intro c e he
    simp [handshakeGo] at he
  | succ n ih =>
    intro c e he
    by_cases hp : polls c
    · simp [handshakeGo, hp] at he
      rw [he]
      rfl
    · simp only [handshakeGo, hp] at he
      simp at he
      rcases he with he | he
      · rw [he]
        rfl
      · exact ih (c + 1) e he

theorem handshakeGo_len (polls : Nat → Bool) :
    ∀ n c, (handshakeGo polls n c).2.2.length ≤ n ∧
      ((handshakeGo polls n c).1 = .error .Timeout →
        (handshakeGo polls n c).2.2.length = n) := by
  intro n
  induction n with
  | zero =>
    intro c
    simp [handshakeGo]
  | succ n ih =>
    intro c
    by_cases hp : polls c
    · refine ⟨by simp [handshakeGo, hp], ?_⟩
      intro h
      simp [handshakeGo, hp] at h
    · have hev : (handshakeGo polls (n + 1) c).2.2 =
          ConnEvent.poll false :: (handshakeGo polls n (c + 1)).2.2 := by
        simp [handshakeGo, hp]
      have hr : (handshakeGo polls (n + 1) c).1 = (handshakeGo polls n (c + 1)).1 := by
        simp [handshakeGo, hp]
      rw [hev, hr, List.length_cons]
      obtain ⟨ihl, iht⟩ := ih (c + 1)
      exact ⟨by omega, fun h => by rw [iht h]⟩

theorem handshake_parts (polls : Nat → Bool) (c : Nat) :
    handshake polls c = ((handshakeGo polls 5 c).1, (handshakeGo polls 5 c).2.1,
      ConnEvent.trainWrite :: (handshakeGo polls 5 c).2.2) := rfl

theorem startConnectionGo_spec (polls : Nat → Bool) :
    ∀ n c, ((startConnectionGo polls n c).1 = .ok () ↔
        ∃ j, j < 5 * n ∧ polls (c + j) = true) ∧
      ((startConnectionGo polls n c).1 = .ok () ∨
        (startConnectionGo polls n c).1 = .error .ConnectionFailed) := by
  intro n
  induction n with
  | zero =>
    intro c
    constructor
    · simp [startConnectionGo]
    · right
      rfl
  | succ n ih =>
    intro c
    rcases handshakeGo_fail polls 5 c with h | ⟨h1, h2, h3⟩
    · have hres : (startConnectionGo polls (n + 1) c).1 = .ok () := by
        simp [startConnectionGo, handshake_parts, h, Except.isOk, Except.toBool]
      refine ⟨?_, Or.inl hres⟩
      rw [hres]
      simp only [true_iff]
      obtain ⟨k, hk, hpk⟩ := (handshakeGo_ok_iff polls 5 c).mp h
      exact ⟨k, by omega, hpk⟩
    · have hres : (startConnectionGo polls (n + 1) c).1 =
          (startConnectionGo polls n (c + 5)).1 := by
        simp [startConnectionGo, handshake_parts, h1, Except.isOk, Except.toBool, h2]
      rw [hres]
      obtain ⟨ihiff, ihdi⟩ := ih (c + 5)
      refine ⟨?_, ihdi⟩
      rw [ihiff]
      constructor
      · rintro ⟨j, hj, hpj⟩
        refine ⟨j + 5, by omega, ?_⟩
        rw [show c + (j + 5) = c + 5 + j by omega]
        exact hpj
      · rintro ⟨j, hj, hpj⟩
        rcases lt_or_le j 5 with hj5 | hj5
        · rw [h3 j hj5] at hpj
          cases hpj
        · refine ⟨j - 5, by omega, ?_⟩
          rw [show c + 5 + (j - 5) = c + j by omega]
          exact hpj

theorem startConnectionGo_events (polls : Nat → Bool) :
    ∀ n c, ∀ e ∈ (startConnectionGo polls n c).2.2,
      e = ConnEvent.trainWrite ∨ e.isPoll = true := by
  intro n
  induction n with
  | zero =>
    intro c e he
    simp [startConnectionGo] at he
  | succ n ih =>
    intro c e he
    by_cases hok : ((handshakeGo polls 5 c).1).isOk
    · simp only [startConnectionGo, handshake_parts, hok, if_true] at he
      simp at he
      rcases he with he | he
      · exact Or.inl he
      · exact Or.inr (handshakeGo_events_polls polls 5 c e he)
    · simp only [startConnectionGo, handshake_parts, Bool.not_eq_true] at he hok
      rw [hok] at he
      simp at he
      rcases he with he | he | he
      · exact Or.inl he
      · exact Or.inr (handshakeGo_events_polls polls 5 c e he)
      · exact ih _ e he

theorem startConnectionGo_train_count (polls : Nat → Bool) :
    ∀ n c, (startConnectionGo polls n c).2.2.count ConnEvent.trainWrite ≤ n ∧
      ((startConnectionGo polls n c).1 = .error .ConnectionFailed →
        (startConnectionGo polls n c).2.2.count ConnEvent.trainWrite = n) := by
  intro n
  have hgo : ∀ m c, (handshakeGo polls m c).2.2.count ConnEvent.trainWrite = 0 := by
    intro m c
    rw [List.count_eq_zero]
    intro hmem
    have := handshakeGo_events_polls polls m c _ hmem
    simp [ConnEvent.isPoll] at this
  induction n with
  | zero =>
    intro c
    simp [startConnectionGo]
  | succ n ih =>
    intro c
    by_cases hok : ((handshakeGo polls 5 c).1).isOk
    · have hev : (startConnectionGo polls (n + 1) c).2.2 =
          ConnEvent.trainWrite :: (handshakeGo polls 5 c).2.2 := by
        simp [startConnectionGo, handshake_parts, hok]
      have hres : (startConnectionGo polls (n + 1) c).1 = .ok () := by
        simp [startConnectionGo, handshake_parts, hok]
      rw [hev, List.count_cons_self, hgo 5 c]
      refine ⟨by omega, ?_⟩
      intro h
      rw [hres] at h
      cases h
    · simp only [Bool.not_eq_true] at hok
      have hev : (startConnectionGo polls (n + 1) c).2.2 =
          (ConnEvent.trainWrite :: (handshakeGo polls 5 c).2.2) ++
            (startConnectionGo polls n ((handshakeGo polls 5 c).2.1)).2.2 := by
        simp [startConnectionGo, handshake_parts, hok]
      have hres : (startConnectionGo polls (n + 1) c).1 =
          (startConnectionGo polls n ((handshakeGo polls 5 c).2.1)).1 := by
        simp [startConnectionGo, handshake_parts, hok]
      obtain ⟨ihl, ihf⟩ := ih ((handshakeGo polls 5 c).2.1)
      rw [hev, hres, List.count_append, List.count_cons_self, hgo 5 c]
      exact ⟨by omega, fun h => by rw [ihf h]; omega⟩

/-- C3: `start_connection` resets to flash once (exactly one reset event) and
    calls `handshake` up to 10 times (at most 10 train writes, exactly 10 when
    it fails); it succeeds exactly when one of the 50 available
    `read_response(0)` polls succeeds and returns `ConnectionFailed` exactly
    when all of them fail. Each `handshake` attempt polls `read_response(0)`
    at most 5 times, succeeds exactly when one of its 5 polls does, and fails
    with `Timeout` exactly when all 5 fail — having really polled 5 times. -/
theorem C3_connection_retries (polls : Nat → Bool) (c : Nat) :
    (start_connection polls c).2.2.count ConnEvent.reset = 1 ∧
    ((start_connection polls c).1 = .ok () ↔ ∃ j, j < 50 ∧ polls (c + j) = true) ∧
    ((start_connection polls c).1 = .error .ConnectionFailed ↔
      ∀ j, j < 50 → polls (c + j) = false) ∧
    (start_connection polls c).2.2.count ConnEvent.trainWrite ≤ 10 ∧
    ((start_connection polls c).1 = .error .ConnectionFailed →
      (start_connection polls c).2.2.count ConnEvent.trainWrite = 10) ∧
    ((handshake polls c).1 = .ok () ↔ ∃ k, k < 5 ∧ polls (c + k) = true) ∧
    ((handshake polls c).1 = .error .Timeout ↔ ∀ k, k < 5 → polls (c + k) = false) ∧
    ((handshake polls c).2.2.filter ConnEvent.isPoll).length ≤ 5 ∧
    ((handshake polls c).1 = .error .Timeout →
      ((handshake polls c).2.2.filter ConnEvent.isPoll).length = 5) := by
  have hstart : start_connection polls c =
      ((startConnectionGo polls 10 c).1, (startConnectionGo polls 10 c).2.1,
        ConnEvent.reset :: (startConnectionGo polls 10 c).2.2) := rfl
  obtain ⟨hiff, hdi⟩ := startConnectionGo_spec polls 10 c
  obtain ⟨htl, htf⟩ := startConnectionGo_train_count polls 10 c
  have hfilter : (handshake polls c).2.2.filter ConnEvent.isPoll =
      (handshakeGo polls 5 c).2.2 := by
    rw [handshake_parts]
    rw [List.filter_cons_of_neg (by decide)]
    exact List.filter_eq_self.mpr (fun e he => handshakeGo_events_polls polls 5 c e he)
  obtain ⟨hgl, hgt⟩ := handshakeGo_len polls 5 c
  refine ⟨?_, ?_, ?_, ?_, ?_, ?_, ?_, ?_, ?_⟩
  · rw [hstart]
    simp only [List.count_cons_self]
    have : (startConnectionGo polls 10 c).2.2.count ConnEvent.reset = 0 := by
      rw [List.count_eq_zero]
      intro hmem
      rcases startConnectionGo_events polls 10 c _ hmem with h | h
      · cases h
      · simp [ConnEvent.isPoll] at h
    rw [this]
  · rw [hstart]
    exact hiff
  · rw [hstart]
    constructor
    · intro h
      intro j hj
      rcases hdi with hok | hcf
      · rw [h] at hok
        cases hok
      · by_contra hne
        have : ∃ j, j < 50 ∧ polls (c + j) = true :=
          ⟨j, hj, by simpa using hne⟩
        have := hiff.mpr this
        rw [h] at this
        cases this
    · intro hall
      rcases hdi with hok | hcf
      · obtain ⟨j, hj, hpj⟩ := hiff.mp hok
        rw [hall j hj] at hpj
        cases hpj
      · exact hcf
  · rw [hstart]
    simpa using htl
  · rw [hstart]
    intro h
    simpa using htf h
  · rw [handshake_parts]
    exact handshakeGo_ok_iff polls 5 c
  · rw [handshake_parts]
    rcases handshakeGo_fail polls 5 c with h | ⟨h1, h2, h3⟩
    · constructor
      · intro ht
        rw [ht] at h
        cases h
      · intro hall
        obtain ⟨k, hk, hpk⟩ := (handshakeGo_ok_iff polls 5 c).mp h
        rw [hall k hk] at hpk
        cases hpk
    · simp only [h1, true_iff]
      exact h3
  · rw [hfilter]
    exact hgl
  · intro ht
    rw [hfilter]
    exact hgt ht

theorem C3_connection_retries_witness :
    (start_connection (fun _ => false) 0).1 = .error .ConnectionFailed ∧
    (start_connection (fun _ => false) 0).2.2.count ConnEvent.reset = 1 ∧
    (start_connection (fun _ => false) 0).2.2.count ConnEvent.trainWrite = 10 :=
  ⟨(C3_connection_retries (fun _ => false) 0).2.2.1.mpr (fun _ _ => rfl),
    (C3_connection_retries (fun _ => false) 0).1,
    (C3_connection_retries (fun _ => false) 0).2.2.2.2.1
      ((C3_connection_retries (fun _ => false) 0).2.2.1.mpr (fun _ _ => rfl))⟩

/-- C7 counterexample: the driver keeps no session-state flag, so a second
    `load_segments` call on the same session — which per the spec is already
    in `EflashLoader` state after the first call, so no load is needed —
    still invokes `load_eflash_loader` again: two calls produce two
    `loadLoader` events, refuting "calling load_eflash_loader only if
    needed". -/
theorem C7_counterexample :
    ((do
      let a ← load_segments envAck (fun _ => []) false []
      let b ← load_segments envAck (fun _ => []) false []
      pure (a.1 ++ b.1)) : Except Error (List Event)) =
      .ok [Event.loadLoader, Event.loadLoader] := rfl

/-- C7 (amended): each of the three driver operations (`load_segments`,
    `check_segments`, `dump_flash`) unconditionally invokes
    `load_eflash_loader` at entry — even on a session already in
    `EflashLoader` state — and issues its flash operations only after that
    call (the successful trace always starts with the `loadLoader` event);
    the driver itself tracks no state and has no `InvalidState` failure
    path, flash operations being private helpers reachable only behind that
    unconditional call. -/
theorem C7_load_loader_first (env : FlashEnv) (hash : List Nat → List Nat)
    (force : Bool) (segments : List Segment) (start stop fuel : Nat) :
    (∀ evs w, load_segments env hash force segments = .ok (evs, w) →
      evs.head? = some Event.loadLoader) ∧
    (∀ evs w, check_segments env hash segments = .ok (evs, w) →
      evs.head? = some Event.loadLoader) ∧
    (∀ evs out, dump_flash env start stop fuel = some (.ok (evs, out)) →
      evs.head? = some Event.loadLoader) := by
  refine ⟨?_, ?_, ?_⟩
  · intro evs w h
    rw [load_segments] at h
    cases hll : env.loadLoaderResp with
    | error e =>
      rw [hll] at h
      cases h
    | ok u =>
      rw [hll] at h
      dsimp only at h
      cases hgo : loadSegmentsGo env hash force segments with
      | error e =>
        rw [hgo] at h
        cases h
      | ok p =>
        obtain ⟨evs2, w2⟩ := p
        rw [hgo] at h
        dsimp only at h
        simp only [Except.ok.injEq, Prod.mk.injEq] at h
        rw [← h.1]
        rfl
  · intro evs w h
    rw [check_segments] at h
    cases hll : env.loadLoaderResp with
    | error e =>
      rw [hll] at h
      cases h
    | ok u =>
      rw [hll] at h
      dsimp only at h
      cases hgo : checkSegmentsGo env hash segments with
      | error e =>
        rw [hgo] at h
        cases h
      | ok p =>
        obtain ⟨evs2, w2⟩ := p
        rw [hgo] at h
        dsimp only at h
        simp only [Except.ok.injEq, Prod.mk.injEq] at h
        rw [← h.1]
        rfl
  · intro evs out h
    rw [dump_flash] at h
    cases hll : env.loadLoaderResp with
    | error e =>
      rw [hll] at h
      cases h
    | ok u =>
      rw [hll] at h
      dsimp only at h
      cases hgo : dumpLoop env stop start fuel with
      | none =>
        rw [hgo] at h
        cases h
      | some r =>
        rw [hgo] at h
        cases r with
        | error e => cases h
        | ok p =>
          obtain ⟨evs2, out2⟩ := p
          dsimp only at h
          simp only [Option.some.injEq, Except.ok.injEq, Prod.mk.injEq] at h
          rw [← h.1]
          rfl

theorem C7_load_loader_first_witness :
    ([Event.loadLoader] : List Event).head? = some Event.loadLoader :=
  (C7_load_loader_first envAck (fun _ => []) false [] 0 0 0).1
    [Event.loadLoader] false rfl

end Blflash
